import Mathlib

/-!
Verification of the ECS store and solitaire wrapper.

Shallow embedding of `src/ecs.rs`, `src/game.rs` and `src/lib.rs`.

Modelling decisions:

* `Entity` is `pub type Entity = u32;` — we model it as `Nat`, and the
  `next_id += 1` counter increment wraps with an explicit `% 2^32`
  (release-mode u32 overflow semantics).
* `TypeId` is modelled as a `Nat` tag.  A `Box<dyn Any>` is modelled by
  `AnyBox`: the runtime type tag the value was boxed with, together with an
  encoded payload (`Nat`).  `downcast_ref::<T>` succeeds exactly when the
  stored tag equals `T`'s tag, which is precisely Rust's `Any::downcast_ref`
  semantics.
* Each `HashMap` is modelled as an association list; `insert` replaces the
  binding of an existing key in place, `get` finds the first binding.  A
  `HashMap` never holds two bindings for one key; the predicate `World.WF`
  states that representation invariant (no duplicate keys, and every stored
  box under the outer key `t` was boxed with tag `t`) for states where a
  proof needs it.
* `for_each` takes an explicitly state-threaded visitor
  `f : σ → Entity → Nat → σ × Nat`, faithful to a Rust `FnMut` closure that
  may both mutate its captured state and overwrite the component in place.
-/

/-- The entity alias `pub type Entity = u32;` (values produced by the store stay below `2^32`). -/
abbrev Entity := Nat

/-- Model of `std::any::TypeId` as a plain tag. -/
abbrev TypeId := Nat

/-- A `Box<dyn Any>`: the payload together with the runtime type tag it was
boxed with. -/
structure AnyBox where
  tid : TypeId
  val : Nat
deriving DecidableEq, Repr

/-- Model of `Any::downcast_ref` (and `downcast_mut`): returns the payload exactly
when the runtime tag matches the requested type. -/
def downcast (t : TypeId) (b : AnyBox) : Option Nat :=
  if b.tid = t then some b.val else none

/-- Model of `HashMap::get`: first binding of the key, if any. -/
def lookupAssoc (k : Nat) : List (Nat × α) → Option α
  | [] => none
  | (k', v') :: rest => if k' = k then some v' else lookupAssoc k rest

/-- Model of `HashMap::insert`: replace the binding of an existing key, otherwise add a
new binding. -/
def insertAssoc (k : Nat) (v : α) : List (Nat × α) → List (Nat × α)
  | [] => [(k, v)]
  | (k', v') :: rest =>
    if k' = k then (k, v) :: rest else (k', v') :: insertAssoc k v rest

/-- The `World` of `src/ecs.rs`: the entity counter and the nested component
map `HashMap<TypeId, HashMap<Entity, Box<dyn Any>>>`. -/
structure World where
  next_id : Nat
  components : List (TypeId × List (Entity × AnyBox))
deriving DecidableEq, Repr

/-- Model of `World::new`: empty world, counter at zero. -/
def World.new : World :=
  { next_id := 0, components := [] }

/-- Model of `World::spawn`: returns the current counter value and increments the
counter (u32 arithmetic, hence the wrap at `2^32`). -/
def World.spawn (w : World) : Entity × World :=
  (w.next_id, { w with next_id := (w.next_id + 1) % 2^32 })

/-- Model of `World::add_component`: fetch (or create empty) the inner map for
`T`'s type id, then insert the entity's binding, boxing the value with tag
`T`. -/
def World.add_component (w : World) (t : TypeId) (e : Entity) (v : Nat) : World :=
  { w with
    components :=
      insertAssoc t
        (insertAssoc e (AnyBox.mk t v) ((lookupAssoc t w.components).getD []))
        w.components }

/-- Model of `World::get_component`: outer lookup on `T`'s type id, inner lookup
on the entity, then `downcast_ref::<T>`. -/
def World.get_component (w : World) (t : TypeId) (e : Entity) : Option Nat :=
  ((lookupAssoc t w.components).bind fun m => lookupAssoc e m).bind fun b =>
    downcast t b

/-- Model of `World::get_component_mut`: same chain with `get_mut` and
`downcast_mut`; the lookup logic is identical to `get_component`. -/
def World.get_component_mut (w : World) (t : TypeId) (e : Entity) : Option Nat :=
  ((lookupAssoc t w.components).bind fun m => lookupAssoc e m).bind fun b =>
    downcast t b

/-- Writing `*r = v'` through the `&mut T` returned by
`get_component_mut::<T>(e)`: when the lookup succeeds the payload in that box
is replaced (its runtime tag is unchanged); when it fails there is nothing to
write to. -/
def World.store_via_mut (w : World) (t : TypeId) (e : Entity) (v' : Nat) : World :=
  match lookupAssoc t w.components with
  | none => w
  | some m =>
    match lookupAssoc e m with
    | none => w
    | some b =>
      if b.tid = t then
        { w with
          components := insertAssoc t (insertAssoc e (AnyBox.mk b.tid v') m) w.components }
      else w

/-- The body of `for_each`'s loop over one inner map: for each entry, if
`downcast_mut::<T>` succeeds the visitor is called with the entity and the
payload, and the payload is overwritten by the visitor's result; the visitor
state `s` is threaded through in iteration order. -/
def forEachEntry (t : TypeId) (f : σ → Entity → Nat → σ × Nat) (s : σ) :
    List (Entity × AnyBox) → σ × List (Entity × AnyBox)
  | [] => (s, [])
  | (e, b) :: rest =>
    if b.tid = t then
      let p := f s e b.val
      let q := forEachEntry t f p.1 rest
      (q.1, (e, AnyBox.mk b.tid p.2) :: q.2)
    else
      let q := forEachEntry t f s rest
      (q.1, (e, b) :: q.2)

/-- Model of `self.components.get_mut(..)` followed by the loop: the
first binding of `T`'s type id (if any) has its inner map traversed in place;
without one the whole call is a no-op. -/
def forEachOuter (t : TypeId) (f : σ → Entity → Nat → σ × Nat) (s : σ) :
    List (TypeId × List (Entity × AnyBox)) → σ × List (TypeId × List (Entity × AnyBox))
  | [] => (s, [])
  | (t', m) :: rest =>
    if t' = t then
      let q := forEachEntry t f s m
      (q.1, (t', q.2) :: rest)
    else
      let q := forEachOuter t f s rest
      (q.1, (t', m) :: q.2)

/-- Model of `World::for_each` with an `FnMut` visitor: threads the visitor's
captured state `s` and returns it with the updated world. -/
def World.for_each (w : World) (t : TypeId) (f : σ → Entity → Nat → σ × Nat)
    (s : σ) : σ × World :=
  let q := forEachOuter t f s w.components
  (q.1, { w with components := q.2 })

/-- Running `for_each` with a logging visitor built from a pure update `g`: the
visitor records each `(entity, old value)` it is called on and overwrites the
component with `g entity oldValue`.  Used to state what `for_each` visits. -/
def runTrace (w : World) (t : TypeId) (g : Entity → Nat → Nat) :
    List (Entity × Nat) × World :=
  w.for_each t (fun acc e v => (acc ++ [(e, v)], g e v)) []

/-- Representation invariant of the nested `HashMap`s for one inner map: keys
are distinct, and every box stored under outer key `t` was boxed with tag `t`
(which is how `add_component` always stores them). -/
def InnerWF (t : TypeId) (m : List (Entity × AnyBox)) : Prop :=
  (m.map Prod.fst).Nodup ∧ ∀ p ∈ m, (p : Entity × AnyBox).2.tid = t

/-- Representation invariant of a `World`'s component storage. -/
def World.WF (w : World) : Prop :=
  ((w.components.map Prod.fst).Nodup) ∧
    ∀ q ∈ w.components, InnerWF (q : TypeId × List (Entity × AnyBox)).1 q.2

instance (t : TypeId) (m : List (Entity × AnyBox)) : Decidable (InnerWF t m) :=
  inferInstanceAs (Decidable (_ ∧ _))

instance (w : World) : Decidable w.WF :=
  inferInstanceAs (Decidable (_ ∧ _))

/-- Iterating `spawn`: the world after `n` successive spawns. -/
def spawnN (w : World) : Nat → World
  | 0 => w
  | n + 1 => (spawnN w n).spawn.2

/-- The entity ID returned by the `(n+1)`-th `spawn` on `w`. -/
def idFrom (w : World) (n : Nat) : Entity :=
  (spawnN w n).spawn.1

/-- The `Suit` enum from `src/game.rs`. -/
inductive Suit where
  | Clubs
  | Diamonds
  | Hearts
  | Spades
deriving DecidableEq, Repr

/-- The `Rank` enum from `src/game.rs`. -/
inductive Rank where
  | Ace
  | Two
  | Three
  | Four
  | Five
  | Six
  | Seven
  | Eight
  | Nine
  | Ten
  | Jack
  | Queen
  | King
deriving DecidableEq, Repr

/-- The string `format!("{:?}", suit)` produced by the derived `Debug`
instance: the variant name. -/
def Suit.debugStr : Suit → String
  | .Clubs => "Clubs"
  | .Diamonds => "Diamonds"
  | .Hearts => "Hearts"
  | .Spades => "Spades"

/-- The string `format!("{:?}", rank)` produced by the derived `Debug`
instance: the variant name. -/
def Rank.debugStr : Rank → String
  | .Ace => "Ace"
  | .Two => "Two"
  | .Three => "Three"
  | .Four => "Four"
  | .Five => "Five"
  | .Six => "Six"
  | .Seven => "Seven"
  | .Eight => "Eight"
  | .Nine => "Nine"
  | .Ten => "Ten"
  | .Jack => "Jack"
  | .Queen => "Queen"
  | .King => "King"

/-- The `Card` struct from `src/game.rs`. -/
structure Card where
  suit : Suit
  rank : Rank
deriving DecidableEq, Repr

/-- The `Deck` struct from `src/game.rs`: a vector of cards. -/
structure Deck where
  cards : List Card
deriving DecidableEq, Repr

/-- The `SolitaireGame` struct from `src/lib.rs`.  The optional WebSocket client carries
no state relevant to any claim; it is modelled as an opaque presence flag. -/
structure SolitaireGame where
  world : World
  deck : Deck
  network : Option Unit
deriving DecidableEq

/-- Model of `SolitaireGame::draw_card`: `self.deck.cards.pop()` removes and returns
the last card of the vector (`None` on an empty vector, which leaves the
vector untouched), and the drawn card is formatted as
`format!("{:?} of {:?}", c.rank, c.suit)`.  The returned string is paired
with the updated game state. -/
def SolitaireGame.draw_card (g : SolitaireGame) : Option String × SolitaireGame :=
  match g.deck.cards.getLast? with
  | none => (none, g)
  | some c =>
    (some (c.rank.debugStr ++ " of " ++ c.suit.debugStr),
      { g with deck := Deck.mk g.deck.cards.dropLast })

/-- The `(entity, payload)` pairs of the entries of one inner map whose box
matches tag `t`: exactly the calls `for_each::<T>` makes, in storage order. -/
def traceOf (t : TypeId) (m : List (Entity × AnyBox)) : List (Entity × Nat) :=
  m.filterMap fun p => if p.2.tid = t then some (p.1, p.2.val) else none

/-- One inner map after `for_each::<T>` with the pure update `g`: matching
boxes get their payload rewritten, the rest are untouched. -/
def mapEntries (t : TypeId) (g : Entity → Nat → Nat)
    (m : List (Entity × AnyBox)) : List (Entity × AnyBox) :=
  m.map fun p =>
    (p.1, if p.2.tid = t then AnyBox.mk p.2.tid (g p.1 p.2.val) else p.2)

/-- A small concrete store used to instantiate the universally quantified
theorems: type 1 on entity 5, type 2 on entities 5 and 6. -/
def sampleWorld : World :=
  ((World.new.add_component 1 5 7).add_component 2 5 9).add_component 2 6 11

/-- A concrete game state with a two-card deck. -/
def sampleGame : SolitaireGame :=
  { world := World.new
    deck := Deck.mk [Card.mk Suit.Hearts Rank.King, Card.mk Suit.Clubs Rank.Ace]
    network := none }

/-- A concrete game state with an empty deck. -/
def emptyDeckGame : SolitaireGame :=
  { world := sampleWorld, deck := Deck.mk [], network := none }

/-- A concrete visitor that rewrites entity 6's component and leaves every
other entity's component alone. -/
def bumpSix (e : Entity) (y : Nat) : Nat :=
  if e = 6 then y + 1 else y

/-! Association-list (`HashMap`) lemmas. -/

theorem lookupAssoc_insertAssoc_self (k : Nat) (v : α) (l : List (Nat × α)) :
    lookupAssoc k (insertAssoc k v l) = some v := by
  induction l with
  | nil => simp [insertAssoc, lookupAssoc]
  | cons p rest ih =>
    obtain ⟨k', v'⟩ := p
    by_cases h : k' = k
    · simp [insertAssoc, h, lookupAssoc]
    · simp [insertAssoc, h, lookupAssoc, ih]

theorem lookupAssoc_insertAssoc_ne (k k' : Nat) (v : α) (l : List (Nat × α))
    (h : k ≠ k') : lookupAssoc k' (insertAssoc k v l) = lookupAssoc k' l := by
  induction l with
  | nil => simp [insertAssoc, lookupAssoc, h]
  | cons p rest ih =>
    obtain ⟨k'', v''⟩ := p
    by_cases hk : k'' = k
    · subst hk
      simp [insertAssoc, lookupAssoc, h]
    · by_cases hk' : k'' = k'
      · simp [insertAssoc, hk, lookupAssoc, hk', Ne.symm h]
      · simp [insertAssoc, hk, lookupAssoc, hk', ih]

theorem insertAssoc_self_of_lookupAssoc (k : Nat) (v : α) (l : List (Nat × α))
    (h : lookupAssoc k l = some v) : insertAssoc k v l = l := by
  induction l with
  | nil => simp [lookupAssoc] at h
  | cons p rest ih =>
    obtain ⟨k', v'⟩ := p
    by_cases hk : k' = k
    · subst hk
      simp [lookupAssoc] at h
      simp [insertAssoc, h]
    · simp [lookupAssoc, hk] at h
      simp [insertAssoc, hk, ih h]

theorem mem_of_lookupAssoc_eq_some {k : Nat} {v : α} {l : List (Nat × α)}
    (h : lookupAssoc k l = some v) : (k, v) ∈ l := by
  induction l with
  | nil => simp [lookupAssoc] at h
  | cons p rest ih =>
    obtain ⟨k', v'⟩ := p
    by_cases hk : k' = k
    · subst hk
      simp [lookupAssoc] at h
      simp [h]
    · simp [lookupAssoc, hk] at h
      exact List.mem_cons_of_mem _ (ih h)

theorem lookupAssoc_eq_some_of_mem {k : Nat} {v : α} {l : List (Nat × α)}
    (hnd : (l.map Prod.fst).Nodup) (h : (k, v) ∈ l) :
    lookupAssoc k l = some v := by
  induction l with
  | nil => simp at h
  | cons p rest ih =>
    obtain ⟨k', v'⟩ := p
    simp at hnd
    rcases List.mem_cons.mp h with h1 | h1
    · injection h1 with h1k h1v
      subst h1k
      subst h1v
      simp [lookupAssoc]
    · have hk : k' ≠ k := by
        intro hc
        subst hc
        exact hnd.1 v h1
      simp [lookupAssoc, hk, ih hnd.2 h1]

/-! Characterisation of `for_each`. -/

theorem forEachEntry_trace (t : TypeId) (g : Entity → Nat → Nat)
    (m : List (Entity × AnyBox)) (acc : List (Entity × Nat)) :
    forEachEntry t (fun acc e v => (acc ++ [(e, v)], g e v)) acc m =
      (acc ++ traceOf t m, mapEntries t g m) := by
  induction m generalizing acc with
  | nil => simp [forEachEntry, traceOf, mapEntries]
  | cons p rest ih =>
    obtain ⟨e, b⟩ := p
    by_cases h : b.tid = t
    · simp [forEachEntry, h, traceOf, mapEntries, ih]
    · simp [forEachEntry, h, traceOf, mapEntries, ih]

theorem forEachOuter_lookup_none (t : TypeId) (f : σ → Entity → Nat → σ × Nat)
    (s : σ) (l : List (TypeId × List (Entity × AnyBox)))
    (h : lookupAssoc t l = none) : forEachOuter t f s l = (s, l) := by
  induction l with
  | nil => simp [forEachOuter]
  | cons p rest ih =>
    obtain ⟨t', m⟩ := p
    by_cases ht : t' = t
    · simp [lookupAssoc, ht] at h
    · simp [lookupAssoc, ht] at h
      simp [forEachOuter, ht, ih h]

theorem forEachOuter_lookup_some (t : TypeId) (f : σ → Entity → Nat → σ × Nat)
    (s : σ) (l : List (TypeId × List (Entity × AnyBox)))
    (m : List (Entity × AnyBox)) (h : lookupAssoc t l = some m) :
    forEachOuter t f s l =
      ((forEachEntry t f s m).1, insertAssoc t (forEachEntry t f s m).2 l) := by
  induction l with
  | nil => simp [lookupAssoc] at h
  | cons p rest ih =>
    obtain ⟨t', m'⟩ := p
    by_cases ht : t' = t
    · subst ht
      simp [lookupAssoc] at h
      subst h
      simp [forEachOuter, insertAssoc]
    · simp [lookupAssoc, ht] at h
      simp [forEachOuter, ht, insertAssoc, ih h]

theorem lookupAssoc_mapEntries (t : TypeId) (g : Entity → Nat → Nat)
    (e : Entity) (m : List (Entity × AnyBox)) :
    lookupAssoc e (mapEntries t g m) =
      (lookupAssoc e m).map fun b =>
        if b.tid = t then AnyBox.mk b.tid (g e b.val) else b := by
  induction m with
  | nil => simp [mapEntries, lookupAssoc]
  | cons p rest ih =>
    obtain ⟨e', b⟩ := p
    by_cases he : e' = e
    · subst he
      simp [mapEntries, lookupAssoc]
    · simpa [mapEntries, lookupAssoc, he] using ih

theorem mem_traceOf (t : TypeId) (m : List (Entity × AnyBox)) (e : Entity)
    (v : Nat) :
    (e, v) ∈ traceOf t m ↔ ∃ b : AnyBox, (e, b) ∈ m ∧ b.tid = t ∧ b.val = v := by
  constructor
  · intro h
    simp only [traceOf, List.mem_filterMap] at h
    obtain ⟨⟨e', b⟩, hmem, heq⟩ := h
    by_cases hb : b.tid = t
    · simp only [hb, if_pos] at heq
      injection heq with heq'
      injection heq' with he hv
      subst he
      subst hv
      exact ⟨b, hmem, hb, rfl⟩
    · simp [hb] at heq
  · rintro ⟨b, hmem, hbt, hbv⟩
    simp only [traceOf, List.mem_filterMap]
    exact ⟨(e, b), hmem, by simp [hbt, hbv]⟩

theorem traceOf_keys_sublist (t : TypeId) (m : List (Entity × AnyBox)) :
    ((traceOf t m).map Prod.fst).Sublist (m.map Prod.fst) := by
  induction m with
  | nil => simp [traceOf]
  | cons p rest ih =>
    obtain ⟨e, b⟩ := p
    by_cases hb : b.tid = t
    · simpa [traceOf, hb] using ih.cons₂ e
    · simpa [traceOf, hb] using ih.cons e

/-! Characterisation of `spawn`. -/

theorem spawnN_next_id (w : World) (h : w.next_id < 2^32) (n : Nat) :
    (spawnN w n).next_id = (w.next_id + n) % 2^32 := by
  induction n with
  | zero => simpa [spawnN] using (Nat.mod_eq_of_lt h).symm
  | succ n ih =>
    simp only [spawnN, World.spawn, ih]
    omega

theorem idFrom_eq (w : World) (h : w.next_id < 2^32) (n : Nat) :
    idFrom w n = (w.next_id + n) % 2^32 := by
  simp [idFrom, World.spawn, spawnN_next_id w h n]

/-! The claims. -/

/-- Claim C2: round-trip — for every store state, every entity `e` (spawned
or not; the store never validates entity existence), and every value `v`
attached under type `t`, `get_component t e` immediately after
`add_component t e v` returns exactly `v`. -/
theorem ecs_round_trip (w : World) (t : TypeId) (e : Entity) (v : Nat) :
    (w.add_component t e v).get_component t e = some v := by
  simp [World.add_component, World.get_component, lookupAssoc_insertAssoc_self,
    downcast]

/-- Claim C3: overwrite is last-write-wins — attaching `v1` then `v2` under
the same type to the same entity makes the lookup return `v2`, and never `v1`
when the two values differ; re-attaching is a defined overwrite, not an
error. -/
theorem ecs_overwrite (w : World) (t : TypeId) (e : Entity) (v1 v2 : Nat) :
    ((w.add_component t e v1).add_component t e v2).get_component t e = some v2 ∧
    (v1 ≠ v2 →
      ((w.add_component t e v1).add_component t e v2).get_component t e ≠ some v1) := by
  have h2 : ((w.add_component t e v1).add_component t e v2).get_component t e
      = some v2 := by
    simp [World.add_component, World.get_component, lookupAssoc_insertAssoc_self,
      downcast]
  refine ⟨h2, fun hne heq => hne ?_⟩
  rw [h2] at heq
  injection heq with h
  exact h.symm

/-- Witness for C3 at a concrete store: after attaching `7` then `9` the
lookup returns `9` and not `7`. -/
theorem ecs_overwrite_witness :
    (7 : Nat) ≠ 9 ∧
    ((World.new.add_component 1 5 7).add_component 1 5 9).get_component 1 5
      = some 9 ∧
    ((World.new.add_component 1 5 7).add_component 1 5 9).get_component 1 5
      ≠ some 7 :=
  ⟨by decide, (ecs_overwrite World.new 1 5 7 9).1,
    (ecs_overwrite World.new 1 5 7 9).2 (by decide)⟩

/-- Claim C7: absence is not an error — on a fresh store every typed lookup
returns `none`; a lookup for a type with no storage entry, or for an entity
missing from that type's entries, returns `none` (an explicit absence
marker), never an error. -/
theorem ecs_absence (w : World) (t : TypeId) (e : Entity)
    (m : List (Entity × AnyBox)) :
    World.new.get_component t e = none ∧
    (lookupAssoc t w.components = none → w.get_component t e = none) ∧
    (lookupAssoc t w.components = some m → lookupAssoc e m = none →
      w.get_component t e = none) := by
  refine ⟨?_, ?_, ?_⟩
  · simp [World.new, World.get_component, lookupAssoc]
  · intro h
    simp [World.get_component, h]
  · intro h1 h2
    simp [World.get_component, h1, h2]

/-- Witness for C7: fresh-store absence at type 3 and entity 0; absence of a
never-attached type on a populated store; absence of an entity under a
populated type. -/
theorem ecs_absence_witness :
    World.new.get_component 3 0 = none ∧
    (lookupAssoc 3 sampleWorld.components = none) ∧
    sampleWorld.get_component 3 0 = none ∧
    (lookupAssoc 1 sampleWorld.components = some [(5, AnyBox.mk 1 7)]) ∧
    (lookupAssoc 0 [(5, AnyBox.mk 1 7)] = none) ∧
    sampleWorld.get_component 1 0 = none :=
  ⟨(ecs_absence World.new 3 0 []).1, by decide,
    (ecs_absence sampleWorld 3 0 []).2.1 (by decide), by decide, by decide,
    (ecs_absence sampleWorld 1 0 [(5, AnyBox.mk 1 7)]).2.2 (by decide) (by decide)⟩

/-- Claim C8: totality — every store operation produces a defined result on
every state and argument: `spawn` always returns the current counter and the
incremented (wrapping u32) counter and never fails, `add_component` always
returns a new state, the lookups always return `none` or a value (never an
error), and `for_each` always returns a final visitor state and store. -/
theorem ecs_totality (w : World) (t : TypeId) (e : Entity) (v : Nat)
    (g : Entity → Nat → Nat) :
    w.spawn = (w.next_id, { w with next_id := (w.next_id + 1) % 2^32 }) ∧
    (∃ w', w.add_component t e v = w') ∧
    (w.get_component t e = none ∨ ∃ x, w.get_component t e = some x) ∧
    (w.get_component_mut t e = none ∨ ∃ x, w.get_component_mut t e = some x) ∧
    (∃ r, runTrace w t g = r) := by
  refine ⟨rfl, ⟨_, rfl⟩, ?_, ?_, ⟨_, rfl⟩⟩
  · cases h : w.get_component t e with
    | none => exact Or.inl rfl
    | some x => exact Or.inr ⟨x, rfl⟩
  · cases h : w.get_component_mut t e with
    | none => exact Or.inl rfl
    | some x => exact Or.inr ⟨x, rfl⟩

/-- Claim C9: `get_component_mut` has exactly the same absence semantics as
`get_component` and refers to exactly the same stored value: the two lookup
chains agree on every state, type and entity. -/
theorem ecs_get_mut_agrees (w : World) (t : TypeId) (e : Entity) :
    w.get_component_mut t e = w.get_component t e := rfl

/-- Claim C1: type isolation — attaching a value under type `A` leaves every
lookup for a distinct type `B` (on any entity) unchanged, and any value a
lookup for `B` does return was stored in a box whose runtime tag is `B`:
a `get` for `B` can never surface a value stored as a different type. -/
theorem ecs_type_isolation (w : World) (A B : TypeId) (e e' : Entity) (v : Nat)
    (hAB : A ≠ B) :
    (w.add_component A e v).get_component B e' = w.get_component B e' ∧
    (∀ u, w.get_component B e' = some u →
      ∃ m b, lookupAssoc B w.components = some m ∧ lookupAssoc e' m = some b ∧
        b.tid = B ∧ b.val = u) := by
  constructor
  · simp [World.add_component, World.get_component,
      lookupAssoc_insertAssoc_ne A B _ _ hAB]
  · intro u hu
    simp only [World.get_component] at hu
    cases hm : lookupAssoc B w.components with
    | none =>
      rw [hm] at hu
      simp at hu
    | some m =>
      rw [hm] at hu
      simp only [Option.some_bind] at hu
      cases hb : lookupAssoc e' m with
      | none =>
        rw [hb] at hu
        simp at hu
      | some b =>
        rw [hb] at hu
        simp only [Option.some_bind, downcast] at hu
        by_cases ht : b.tid = B
        · rw [if_pos ht] at hu
          injection hu with hu'
          exact ⟨m, b, rfl, hb, ht, hu'⟩
        · rw [if_neg ht] at hu
          exact absurd hu (by simp)

/-- Witness for C1 at a concrete store: attaching type 1 does not disturb the
type-2 lookup, and type-2 lookups only surface boxes tagged 2. -/
theorem ecs_type_isolation_witness :
    (1 : TypeId) ≠ 2 ∧
    (sampleWorld.add_component 1 5 100).get_component 2 5
      = sampleWorld.get_component 2 5 ∧
    (∀ u, sampleWorld.get_component 2 5 = some u →
      ∃ m b, lookupAssoc 2 sampleWorld.components = some m ∧
        lookupAssoc 5 m = some b ∧ b.tid = 2 ∧ b.val = u) :=
  ⟨by decide, (ecs_type_isolation sampleWorld 1 2 5 5 100 (by decide)).1,
    (ecs_type_isolation sampleWorld 1 2 5 5 100 (by decide)).2⟩

/-- Claim C6: entity isolation — for distinct entities `e1 ≠ e2`, attaching a
value to `e1`, writing through `get_component_mut` on `e1`, or running a
`for_each` visitor that rewrites nothing on `e2` (it may rewrite every other
entity's component) all leave the lookup on `e2` unchanged. -/
theorem ecs_entity_isolation (w : World) (t : TypeId) (e1 e2 : Entity)
    (v v' : Nat) (g : Entity → Nat → Nat) (hne : e1 ≠ e2)
    (hg : ∀ x, g e2 x = x) :
    (w.add_component t e1 v).get_component t e2 = w.get_component t e2 ∧
    (w.store_via_mut t e1 v').get_component t e2 = w.get_component t e2 ∧
    (runTrace w t g).2.get_component t e2 = w.get_component t e2 := by
  refine ⟨?_, ?_, ?_⟩
  · cases hm : lookupAssoc t w.components with
    | none =>
      simp [World.add_component, World.get_component, hm,
        lookupAssoc_insertAssoc_self, lookupAssoc_insertAssoc_ne e1 e2 _ _ hne,
        lookupAssoc, hne]
    | some m =>
      simp [World.add_component, World.get_component, hm,
        lookupAssoc_insertAssoc_self, lookupAssoc_insertAssoc_ne e1 e2 _ _ hne]
  · cases hm : lookupAssoc t w.components with
    | none => simp [World.store_via_mut, hm]
    | some m =>
      cases hb : lookupAssoc e1 m with
      | none => simp [World.store_via_mut, hm, hb]
      | some b =>
        by_cases ht : b.tid = t
        · simp [World.store_via_mut, hm, hb, ht, World.get_component,
            lookupAssoc_insertAssoc_self, lookupAssoc_insertAssoc_ne e1 e2 _ _ hne]
        · simp [World.store_via_mut, hm, hb, ht]
  · cases hm : lookupAssoc t w.components with
    | none =>
      simp [runTrace, World.for_each, forEachOuter_lookup_none t _ [] _ hm]
    | some m =>
      have hout := forEachOuter_lookup_some t
        (fun acc e v => (acc ++ [(e, v)], g e v)) [] w.components m hm
      simp only [runTrace, World.for_each, hout, forEachEntry_trace,
        World.get_component, lookupAssoc_insertAssoc_self, Option.some_bind, hm,
        lookupAssoc_mapEntries]
      cases hb : lookupAssoc e2 m with
      | none => rfl
      | some b =>
        by_cases ht : b.tid = t
        · simp [ht, hg, downcast]
        · simp [ht]

/-- Witness for C6 at a concrete store: entity 5's type-2 component is
untouched by an attach to entity 6, a write through entity 6's mutable
lookup, and a `for_each` that rewrites only entity 6. -/
theorem ecs_entity_isolation_witness :
    (6 : Entity) ≠ 5 ∧
    (∀ x, bumpSix 5 x = x) ∧
    (sampleWorld.add_component 2 6 42).get_component 2 5
      = sampleWorld.get_component 2 5 ∧
    (sampleWorld.store_via_mut 2 6 42).get_component 2 5
      = sampleWorld.get_component 2 5 ∧
    (runTrace sampleWorld 2 bumpSix).2.get_component 2 5
      = sampleWorld.get_component 2 5 :=
  ⟨by decide, fun x => by simp [bumpSix],
    (ecs_entity_isolation sampleWorld 2 6 5 42 42 bumpSix (by decide)
      (fun x => by simp [bumpSix])).1,
    (ecs_entity_isolation sampleWorld 2 6 5 42 42 bumpSix (by decide)
      (fun x => by simp [bumpSix])).2.1,
    (ecs_entity_isolation sampleWorld 2 6 5 42 42 bumpSix (by decide)
      (fun x => by simp [bumpSix])).2.2⟩

/-- Counterexample to claim C4 as stated: `next_id` is a `u32`, so the
counter wraps after `2^32` spawns.  Starting from a fresh store, the first
spawn returns `0`, the `2^32`-th returns `2^32 - 1`, and the `(2^32+1)`-th
returns `0` again — an ID equal to a previously returned one and not greater
than its predecessor. -/
theorem ecs_spawn_monotonic_counterexample :
    idFrom World.new 0 = 0 ∧
    idFrom World.new (2^32 - 1) = 2^32 - 1 ∧
    idFrom World.new (2^32) = 0 ∧
    ¬ idFrom World.new (2^32 - 1) < idFrom World.new (2^32) := by
  have h : ∀ n, idFrom World.new n = n % 2^32 := by
    intro n
    have h0 : World.new.next_id = 0 := rfl
    simpa [h0] using idFrom_eq World.new (by rw [h0]; norm_num) n
  have e1 : idFrom World.new 0 = 0 := by simp [h]
  have e2 : idFrom World.new (2^32 - 1) = 2^32 - 1 := by
    rw [h]
    exact Nat.mod_eq_of_lt (by norm_num)
  have e3 : idFrom World.new (2^32) = 0 := by
    rw [h]
    exact Nat.mod_self _
  refine ⟨e1, e2, e3, ?_⟩
  rw [e2, e3]
  simp

/-- Claim C4 (amended): spawned entity IDs are strictly increasing and
pairwise distinct as long as the u32 counter does not overflow, i.e. as long
as the total number of spawns keeps `next_id` below `2^32`; the other store
operations never change the counter, so interleaving them preserves this. -/
theorem ecs_spawn_monotonic (w : World) (i j : Nat) (hij : i < j)
    (hj : w.next_id + j < 2^32) :
    idFrom w i < idFrom w j ∧ idFrom w i ≠ idFrom w j ∧
    (∀ (t : TypeId) (e : Entity) (v : Nat),
      (w.add_component t e v).next_id = w.next_id) ∧
    (∀ (t : TypeId) (g : Entity → Nat → Nat),
      (runTrace w t g).2.next_id = w.next_id) := by
  have hw : w.next_id < 2^32 := lt_of_le_of_lt (Nat.le_add_right _ _) hj
  have hi := idFrom_eq w hw i
  have hj' := idFrom_eq w hw j
  have hmi : (w.next_id + i) % 2^32 = w.next_id + i :=
    Nat.mod_eq_of_lt (by omega)
  have hmj : (w.next_id + j) % 2^32 = w.next_id + j := Nat.mod_eq_of_lt hj
  refine ⟨?_, ?_, fun t e v => rfl, fun t g => rfl⟩
  · rw [hi, hj', hmi, hmj]
    exact Nat.add_lt_add_left hij _
  · rw [hi, hj', hmi, hmj]
    exact Nat.ne_of_lt (Nat.add_lt_add_left hij _)

/-- Witness for the amended C4 on a fresh store: the first and fourth spawned
IDs are ordered and distinct, and the other operations leave the counter
alone. -/
theorem ecs_spawn_monotonic_witness :
    (0 : Nat) < 3 ∧ World.new.next_id + 3 < 2^32 ∧
    (idFrom World.new 0 < idFrom World.new 3 ∧
      idFrom World.new 0 ≠ idFrom World.new 3 ∧
      (∀ (t : TypeId) (e : Entity) (v : Nat),
        (World.new.add_component t e v).next_id = World.new.next_id) ∧
      (∀ (t : TypeId) (g : Entity → Nat → Nat),
        (runTrace World.new t g).2.next_id = World.new.next_id)) :=
  ⟨by norm_num, by norm_num [World.new],
    ecs_spawn_monotonic World.new 0 3 (by norm_num) (by norm_num [World.new])⟩

/-- Claim C5: iteration completeness — on a well-formed store, `for_each`
with a logging visitor calls the visitor exactly once per entity currently
holding a `t` component (its trace keys are duplicate-free and its trace
holds exactly the `(entity, value)` pairs the lookups report), the visitor's
rewrite of each component is visible through subsequent lookups, entities
without the component stay absent, and when no entity holds a `t` component
the whole call leaves the store untouched. -/
theorem ecs_for_each_complete (w : World) (t : TypeId) (g : Entity → Nat → Nat)
    (hwf : w.WF) :
    ((runTrace w t g).1.map Prod.fst).Nodup ∧
    (∀ e v, (e, v) ∈ (runTrace w t g).1 ↔ w.get_component t e = some v) ∧
    (∀ e v, w.get_component t e = some v →
      (runTrace w t g).2.get_component t e = some (g e v)) ∧
    (∀ e, w.get_component t e = none →
      (runTrace w t g).2.get_component t e = none) ∧
    ((∀ e, w.get_component t e = none) → (runTrace w t g).2 = w) := by
  cases hm : lookupAssoc t w.components with
  | none =>
    have hr : runTrace w t g = ([], w) := by
      simp [runTrace, World.for_each, forEachOuter_lookup_none t _ [] _ hm]
    have hg0 : ∀ e, w.get_component t e = none := by
      intro e
      simp [World.get_component, hm]
    refine ⟨?_, ?_, ?_, ?_, ?_⟩
    · simp [hr]
    · intro e v
      simp [hr, hg0 e]
    · intro e v hv
      rw [hg0 e] at hv
      simp at hv
    · intro e _
      rw [hr]
      exact hg0 e
    · intro _
      rw [hr]
  | some m =>
    have hmem : (t, m) ∈ w.components := mem_of_lookupAssoc_eq_some hm
    have hinner : InnerWF t m := hwf.2 (t, m) hmem
    have hout := forEachOuter_lookup_some t
      (fun acc e v => (acc ++ [(e, v)], g e v)) [] w.components m hm
    have hr1 : (runTrace w t g).1 = traceOf t m := by
      simp [runTrace, World.for_each, hout, forEachEntry_trace]
    have hr2 : (runTrace w t g).2 =
        { w with components := insertAssoc t (mapEntries t g m) w.components } := by
      simp [runTrace, World.for_each, hout, forEachEntry_trace]
    have hget : ∀ e, w.get_component t e = (lookupAssoc e m).bind (downcast t) := by
      intro e
      simp [World.get_component, hm]
    have hget2 : ∀ e, (runTrace w t g).2.get_component t e =
        ((lookupAssoc e m).map fun b =>
          if b.tid = t then AnyBox.mk b.tid (g e b.val) else b).bind (downcast t) := by
      intro e
      rw [hr2]
      simp [World.get_component, lookupAssoc_insertAssoc_self, lookupAssoc_mapEntries]
    have hgetc : ∀ e v, (w.get_component t e = some v ↔
        ∃ b : AnyBox, lookupAssoc e m = some b ∧ b.tid = t ∧ b.val = v) := by
      intro e v
      rw [hget e]
      cases hb : lookupAssoc e m with
      | none => simp
      | some b =>
        simp only [Option.some_bind, downcast]
        by_cases ht : b.tid = t
        · simp [ht]
        · simp [ht]
    refine ⟨?_, ?_, ?_, ?_, ?_⟩
    · rw [hr1]
      exact hinner.1.sublist (traceOf_keys_sublist t m)
    · intro e v
      rw [hr1, mem_traceOf, hgetc e v]
      constructor
      · rintro ⟨b, hbm, h1, h2⟩
        exact ⟨b, lookupAssoc_eq_some_of_mem hinner.1 hbm, h1, h2⟩
      · rintro ⟨b, hbm, h1, h2⟩
        exact ⟨b, mem_of_lookupAssoc_eq_some hbm, h1, h2⟩
    · intro e v hv
      obtain ⟨b, hbm, hbt, hbv⟩ := (hgetc e v).mp hv
      rw [hget2 e, hbm]
      simp [hbt, downcast, hbv]
    · intro e he
      rw [hget e] at he
      rw [hget2 e]
      cases hb : lookupAssoc e m with
      | none => simp
      | some b =>
        rw [hb] at he
        simp only [Option.some_bind, downcast] at he
        by_cases ht : b.tid = t
        · rw [if_pos ht] at he
          simp at he
        · simp [ht, downcast]
    · intro hall
      have hm0 : m = [] := by
        cases m with
        | nil => rfl
        | cons p rest =>
          exfalso
          obtain ⟨e0, b0⟩ := p
          have hb0 : lookupAssoc e0 ((e0, b0) :: rest) = some b0 := by
            simp [lookupAssoc]
          have ht0 : b0.tid = t := hinner.2 (e0, b0) (by simp)
          have hx := hall e0
          rw [hget e0, hb0] at hx
          simp [downcast, ht0] at hx
      subst hm0
      rw [hr2]
      have hins : insertAssoc t (mapEntries t g []) w.components = w.components := by
        simpa [mapEntries] using insertAssoc_self_of_lookupAssoc t [] w.components hm
      rw [hins]

/-- Witness for C5 at a concrete store: type 2 is held by entities 5 and 6,
and `for_each` with the `bumpSix` visitor satisfies every clause. -/
theorem ecs_for_each_complete_witness :
    sampleWorld.WF ∧
    (((runTrace sampleWorld 2 bumpSix).1.map Prod.fst).Nodup ∧
      (∀ e v, (e, v) ∈ (runTrace sampleWorld 2 bumpSix).1 ↔
        sampleWorld.get_component 2 e = some v) ∧
      (∀ e v, sampleWorld.get_component 2 e = some v →
        (runTrace sampleWorld 2 bumpSix).2.get_component 2 e = some (bumpSix e v)) ∧
      (∀ e, sampleWorld.get_component 2 e = none →
        (runTrace sampleWorld 2 bumpSix).2.get_component 2 e = none) ∧
      ((∀ e, sampleWorld.get_component 2 e = none) →
        (runTrace sampleWorld 2 bumpSix).2 = sampleWorld)) :=
  ⟨by decide, ecs_for_each_complete sampleWorld 2 bumpSix (by decide)⟩

/-- Claim C10: `draw_card` returns `none` exactly when the deck is empty, in
which case the game state is unchanged; on a non-empty deck it removes
exactly the last card of `deck.cards`, leaves everything else (including the
ECS world) unchanged, and returns `"<rank> of <suit>"` for the removed
card. -/
theorem draw_card_semantics (g : SolitaireGame) :
    (g.draw_card.1 = none ↔ g.deck.cards = []) ∧
    (g.deck.cards = [] → g.draw_card = (none, g)) ∧
    (∀ cs c, g.deck.cards = cs ++ [c] →
      g.draw_card = (some (c.rank.debugStr ++ " of " ++ c.suit.debugStr),
        { g with deck := Deck.mk cs })) := by
  refine ⟨?_, ?_, ?_⟩
  · constructor
    · intro h
      cases hl : g.deck.cards.getLast? with
      | none => exact List.getLast?_eq_none_iff.mp hl
      | some c =>
        simp [SolitaireGame.draw_card, hl] at h
    · intro h
      simp [SolitaireGame.draw_card, h]
  · intro h
    simp [SolitaireGame.draw_card, h]
  · intro cs c h
    simp [SolitaireGame.draw_card, h, List.getLast?_concat, List.dropLast_concat]

/-- Witness for C10: drawing from the empty deck returns `none` and changes
nothing; drawing from a two-card deck removes exactly the last card and
formats it. -/
theorem draw_card_semantics_witness :
    emptyDeckGame.deck.cards = [] ∧
    emptyDeckGame.draw_card = (none, emptyDeckGame) ∧
    sampleGame.deck.cards
      = [Card.mk Suit.Hearts Rank.King] ++ [Card.mk Suit.Clubs Rank.Ace] ∧
    sampleGame.draw_card = (some "Ace of Clubs",
      { sampleGame with deck := Deck.mk [Card.mk Suit.Hearts Rank.King] }) :=
  ⟨rfl, (draw_card_semantics emptyDeckGame).2.1 rfl, rfl, by
    rw [(draw_card_semantics sampleGame).2.2 [Card.mk Suit.Hearts Rank.King]
      (Card.mk Suit.Clubs Rank.Ace) rfl]
    decide⟩
